import Mathlib

/-!
Verification of the calendar/business-day core of the calendar-intel
repository. The repository has two application variants:
`src/unnamed/part_000` (a Nager.Date agent with next-holiday,
business-days, compare-countries and add-business-days endpoints) and
`src/src/index.ts` (a variant with ISO-week helpers and a business-days
endpoint).

Dates are embedded as day numbers: natural numbers counting days since
1970-01-01 (UTC). The source represents dates either as JS Date values at
UTC midnight or as YYYY-MM-DD strings; for the years the handlers accept
(2000-2100) the lexicographic order on those strings coincides with the
chronological order on day numbers, so string comparison (h.date > today),
string sorting and string-set membership are embedded as the corresponding
operations on day numbers. The civil (year, month, day) conversions follow
the standard era-based civil-calendar algorithm, valid for every date on or
after 1970-01-01. Provider fetches (getHolidays country year) are embedded
as a function argument of type Nat → Except Unit (List Nat): a year is
mapped either to the list of holiday day numbers the provider returned or
to a provider error (a thrown exception in the source).
-/

namespace CalendarIntel

/-- Days from 1970-01-01 to the civil date y-m-d (era-based algorithm,
valid for dates on or after 1970-01-01; month in 1..12, day in 1..31). -/
def daysFromCivil (y m d : Nat) : Nat :=
  let y2 := if m ≤ 2 then y - 1 else y
  let era := y2 / 400
  let yoe := y2 % 400
  let mp := if 2 < m then m - 3 else m + 9
  let doy := (153 * mp + 2) / 5 + d - 1
  let doe := yoe * 365 + yoe / 4 - yoe / 100 + doy
  era * 146097 + doe - 719468

/-- Civil date (year, month, day) of a day number (days since 1970-01-01),
inverse of daysFromCivil on the supported range. -/
def civilFromDays (z : Nat) : Nat × Nat × Nat :=
  let z2 := z + 719468
  let era := z2 / 146097
  let doe := z2 % 146097
  let yoe := (doe - doe / 1460 + doe / 36524 - doe / 146096) / 365
  let y := yoe + era * 400
  let doy := doe - (365 * yoe + yoe / 4 - yoe / 100)
  let mp := (5 * doy + 2) / 153
  let d := doy - (153 * mp + 2) / 5 + 1
  let m := if mp < 10 then mp + 3 else mp - 9
  (if m ≤ 2 then y + 1 else y, m, d)

/-- Calendar year of a day number; embeds the source's
parseInt(dateStr.split('-')[0]) and Date.getFullYear() on a UTC-midnight
date. -/
def yearOf (z : Nat) : Nat := (civilFromDays z).1

/-- JS Date.getDay() on a UTC-midnight date: 0 = Sunday .. 6 = Saturday
(1970-01-01 was a Thursday, hence the +4 offset). -/
def getDay (z : Nat) : Nat := (z + 4) % 7

/-- Weekend test from both variants: day === 0 || day === 6. -/
def isWeekend (z : Nat) : Bool := getDay z == 0 || getDay z == 6

/-- ISO week number, embedding getISOWeek of src/src/index.ts lines 29-35:
shift the date to the Thursday of its week (getUTCDay() || 7, then
d + 4 - dayNum), then ceil((daysSinceJan1 + 1) / 7) for that Thursday's
year. -/
def getISOWeek (z : Nat) : Nat :=
  let dayNum := if getDay z = 0 then 7 else getDay z
  let d := z + 4 - dayNum
  let yearStart := daysFromCivil (yearOf d) 1 1
  (d - yearStart + 1 + 6) / 7

/-- Inclusive list of day numbers from a to b (empty when b < a); the days
visited by the while (current <= end) loops of both business-days handlers,
in iteration order. -/
def daysInRange (a b : Nat) : List Nat := List.range' a (b + 1 - a)

/-- Business-day tally returned by the business-days handlers. -/
structure Tally where
  totalDays : Nat
  businessDays : Nat
  weekendDays : Nat
  holidayDays : Nat
deriving DecidableEq

/-- Loop body of the business-days handler in src/unnamed/part_000 lines
244-255: totalDays++ always; weekendDays++ if weekend; holidayDays++ if
holiday and not weekend; businessDays++ if neither weekend nor holiday. -/
def tallyStepA (hs : List Nat) (t : Tally) (d : Nat) : Tally :=
  let weekend := isWeekend d
  let holiday := hs.contains d
  { totalDays := t.totalDays + 1
    businessDays := t.businessDays + (if !weekend && !holiday then 1 else 0)
    weekendDays := t.weekendDays + (if weekend then 1 else 0)
    holidayDays := t.holidayDays + (if holiday && !weekend then 1 else 0) }

/-- Loop body of the business-days handler in src/src/index.ts lines
256-269: if weekend then weekends++ else if holiday then holidays++ else
businessDays++. -/
def tallyStepB (hs : List Nat) (t : Tally) (d : Nat) : Tally :=
  if isWeekend d then
    { t with totalDays := t.totalDays + 1, weekendDays := t.weekendDays + 1 }
  else if hs.contains d then
    { t with totalDays := t.totalDays + 1, holidayDays := t.holidayDays + 1 }
  else
    { t with totalDays := t.totalDays + 1, businessDays := t.businessDays + 1 }

/-- Day-iteration of the business-days handler of src/unnamed/part_000
(lines 236-255) over an already-built holiday set hs. -/
def tallyA (hs : List Nat) (s e : Nat) : Tally :=
  (daysInRange s e).foldl (tallyStepA hs) ⟨0, 0, 0, 0⟩

/-- Day-iteration of the business-days handler of src/src/index.ts
(lines 250-269) over an already-built holiday set hs. -/
def tallyB (hs : List Nat) (s e : Nat) : Tally :=
  (daysInRange s e).foldl (tallyStepB hs) ⟨0, 0, 0, 0⟩

/-- Business-day test of the add-business-days walk of src/unnamed/part_000
line 358 and of the is-holiday handler: not a weekend and not in the
holiday set. -/
def isBusinessDay (hs : List Nat) (d : Nat) : Bool :=
  !isWeekend d && !hs.contains d

/-- Per-year holiday accumulation of the business-days handler in
src/unnamed/part_000 lines 230-234: there is no try/catch around
getHolidays there, so a fetch error propagates and aborts the whole
handler. The accumulated list stands for the Set of date strings; only
membership in it is ever consulted. -/
def collectA (fetch : Nat → Except Unit (List Nat)) (y0 y1 : Nat) :
    Except Unit (List Nat) :=
  (List.range' y0 (y1 + 1 - y0)).foldlM
    (fun acc y => do
      let hs ← fetch y
      pure (acc ++ hs)) []

/-- Per-year holiday accumulation with try/catch, as in the business-days
handler of src/src/index.ts lines 240-247 and the add-business-days handler
of src/unnamed/part_000 lines 339-347: a year whose fetch fails is skipped
and contributes nothing. -/
def collectB (fetch : Nat → Except Unit (List Nat)) (y0 y1 : Nat) : List Nat :=
  (List.range' y0 (y1 + 1 - y0)).foldl
    (fun acc y =>
      match fetch y with
      | .ok hs => acc ++ hs
      | .error _ => acc) []

/-- Business-days handler of src/unnamed/part_000 lines 225-268: collect
holidays for startYear..endYear (a fetch error propagates), then tally. -/
def businessDaysHandlerA (fetch : Nat → Except Unit (List Nat)) (s e : Nat) :
    Except Unit Tally := do
  let hs ← collectA fetch (yearOf s) (yearOf e)
  pure (tallyA hs s e)

/-- Business-days handler of src/src/index.ts lines 230-284: collect
holidays for startYear..endYear (fetch errors skipped), then tally. -/
def businessDaysHandlerB (fetch : Nat → Except Unit (List Nat)) (s e : Nat) :
    Tally :=
  tallyB (collectB fetch (yearOf s) (yearOf e)) s e

/-- Forward walk of the add-business-days handler of src/unnamed/part_000
lines 349-361: while businessDaysAdded < n, step one calendar day forward,
count the move, and increment businessDaysAdded on non-weekend non-holiday
days; returns the reached day and the number of calendar days moved. fuel
bounds the number of iterations of the source's unbounded while loop. -/
def addBizLoop (hs : List Nat) (n : Nat) :
    Nat → Nat → Nat → Nat → Option (Nat × Nat)
  | fuel, current, added, moved =>
    if n ≤ added then some (current, moved)
    else
      match fuel with
      | 0 => none
      | f + 1 =>
        addBizLoop hs n f (current + 1)
          (if isBusinessDay hs (current + 1) then added + 1 else added)
          (moved + 1)

/-- Add-business-days handler of src/unnamed/part_000 lines 335-372:
collect holidays for startYear, startYear+1 and startYear+2 (fetch errors
skipped), then run the forward walk from the start date with both counters
at zero. -/
def addBusinessDaysHandler (fetch : Nat → Except Unit (List Nat))
    (s n fuel : Nat) : Option (Nat × Nat) :=
  addBizLoop (collectB fetch (yearOf s) (yearOf s + 2)) n fuel s 0 0

/-- Modelled from the spec: the backward business-day walk of the
round-trip property in section 8 ("walking backward n business days
(skipping weekends/holidays) returns to d"); it mirrors the forward walk
and is not present in the source. -/
def subBizLoop (hs : List Nat) (n : Nat) : Nat → Nat → Nat → Option Nat
  | fuel, current, added =>
    if n ≤ added then some current
    else
      match fuel with
      | 0 => none
      | f + 1 =>
        subBizLoop hs n f (current - 1)
          (if isBusinessDay hs (current - 1) then added + 1 else added)

/-- Next-holiday handler of src/unnamed/part_000 lines 166-212: fetch
holidays for fromDate's year and the next year (a fetch error propagates),
keep dates strictly after fromDate, sort ascending, and return the first
together with daysUntil = ceil((next - from) / msPerDay) - on UTC-midnight
dates exactly the day-number difference; none when no future holiday
exists in the two-year horizon. -/
def nextHolidayHandler (fetch : Nat → Except Unit (List Nat)) (f : Nat) :
    Except Unit (Option (Nat × Nat)) := do
  let h1 ← fetch (yearOf f)
  let h2 ← fetch (yearOf f + 1)
  let future := List.insertionSort (· ≤ ·) ((h1 ++ h2).filter (fun d => f < d))
  match future.head? with
  | none => pure none
  | some d => pure (some (d, d - f))

/-- Shared-holiday-dates computation of the compare-countries handler of
src/unnamed/part_000 lines 299-308: flatten all per-country date lists,
count occurrences of each date in the flattened list, keep dates whose
occurrence count exceeds 1, and sort ascending. The record keyed by date is
embedded by dedup (its keys are the distinct dates) together with count;
JS string sort on YYYY-MM-DD strings is chronological order. -/
def sharedHolidayDates (lists : List (List Nat)) : List Nat :=
  let allDates := lists.flatten
  List.insertionSort (· ≤ ·)
    (allDates.dedup.filter (fun d => 1 < allDates.count d))

/-- Spec-side reading of the compare-countries claim, for comparison with
sharedHolidayDates: a date is shared when it is present in the holiday
lists of more than one input country. -/
def sharedBySpec (lists : List (List Nat)) (d : Nat) : Bool :=
  1 < lists.countP (fun l => l.contains d)

/-- Witness fixture: US nationwide public-holiday dates of 2024 as day
numbers. -/
def us2024 : List Nat :=
  [daysFromCivil 2024 1 1, daysFromCivil 2024 1 15,
   daysFromCivil 2024 2 19, daysFromCivil 2024 5 27,
   daysFromCivil 2024 6 19, daysFromCivil 2024 7 4,
   daysFromCivil 2024 9 2, daysFromCivil 2024 10 14,
   daysFromCivil 2024 11 11, daysFromCivil 2024 11 28,
   daysFromCivil 2024 12 25]

/-- Witness fixture: US nationwide public-holiday dates of 2025 as day
numbers. -/
def us2025 : List Nat :=
  [daysFromCivil 2025 1 1, daysFromCivil 2025 1 20,
   daysFromCivil 2025 2 17, daysFromCivil 2025 5 26,
   daysFromCivil 2025 6 19, daysFromCivil 2025 7 4,
   daysFromCivil 2025 9 1, daysFromCivil 2025 10 13,
   daysFromCivil 2025 11 11, daysFromCivil 2025 11 27,
   daysFromCivil 2025 12 25]

/-- Provider fixture for witnesses: returns the US holiday dates for 2024
and 2025, and a provider error for every other year. -/
def usFetch : Nat → Except Unit (List Nat) := fun y =>
  if y = 2024 then .ok us2024
  else if y = 2025 then .ok us2025
  else .error ()

section Lemmas

theorem daysInRange_eq_nil {a b : Nat} (h : b < a) : daysInRange a b = [] := by
  unfold daysInRange
  have : b + 1 - a = 0 := by omega
  simp [this]

theorem daysInRange_concat {a b : Nat} (h : a ≤ b + 1) :
    daysInRange a (b + 1) = daysInRange a b ++ [b + 1] := by
  unfold daysInRange
  have h1 : b + 1 + 1 - a = (b + 1 - a) + 1 := by omega
  rw [h1, List.range'_concat]
  have h2 : a + 1 * (b + 1 - a) = b + 1 := by omega
  rw [h2]

theorem daysInRange_cons {a b : Nat} (h : a ≤ b) :
    daysInRange a b = a :: daysInRange (a + 1) b := by
  unfold daysInRange
  have h1 : b + 1 - a = (b - a) + 1 := by omega
  have h2 : b + 1 - (a + 1) = b - a := by omega
  rw [h1, h2, List.range'_succ]

theorem daysInRange_split {a b c : Nat} (hab : a ≤ b + 1) (hbc : b ≤ c) :
    daysInRange a c = daysInRange a b ++ daysInRange (b + 1) c := by
  unfold daysInRange
  have h2 : a + 1 * (b + 1 - a) = b + 1 := by omega
  have h3 : c + 1 - (b + 1) + (b + 1 - a) = c + 1 - a := by omega
  calc List.range' a (c + 1 - a)
      = List.range' a (b + 1 - a) ++ List.range' (a + 1 * (b + 1 - a)) (c + 1 - (b + 1)) := by
        rw [List.range'_append, h3]
    _ = List.range' a (b + 1 - a) ++ List.range' (b + 1) (c + 1 - (b + 1)) := by rw [h2]

theorem mem_daysInRange {d a b : Nat} : d ∈ daysInRange a b ↔ a ≤ d ∧ d ≤ b := by
  unfold daysInRange
  rw [List.mem_range'_1]
  omega

theorem length_daysInRange (a b : Nat) : (daysInRange a b).length = b + 1 - a := by
  unfold daysInRange
  exact List.length_range' a 1 (b + 1 - a)

/-- The tally sum invariant is preserved by one loop step of either
variant. -/
theorem tallyStep_preserves (hs : List Nat) (d : Nat) (t : Tally)
    (ht : t.totalDays = t.businessDays + t.weekendDays + t.holidayDays) :
    ((tallyStepA hs t d).totalDays =
      (tallyStepA hs t d).businessDays + (tallyStepA hs t d).weekendDays +
        (tallyStepA hs t d).holidayDays) ∧
    ((tallyStepB hs t d).totalDays =
      (tallyStepB hs t d).businessDays + (tallyStepB hs t d).weekendDays +
        (tallyStepB hs t d).holidayDays) := by
  cases hw : isWeekend d <;> by_cases hh : d ∈ hs <;>
    simp [tallyStepA, tallyStepB, hw, hh] <;> omega

theorem tallyStepA_total (hs : List Nat) (d : Nat) (t : Tally) :
    (tallyStepA hs t d).totalDays = t.totalDays + 1 := by
  simp [tallyStepA]

theorem tallyStepB_total (hs : List Nat) (d : Nat) (t : Tally) :
    (tallyStepB hs t d).totalDays = t.totalDays + 1 := by
  cases hw : isWeekend d <;> by_cases hh : d ∈ hs <;>
    simp [tallyStepB, hw, hh]

theorem tally_foldl_inv (hs : List Nat) (l : List Nat) :
    ∀ t : Tally,
      t.totalDays = t.businessDays + t.weekendDays + t.holidayDays →
      ((l.foldl (tallyStepA hs) t).totalDays =
          (l.foldl (tallyStepA hs) t).businessDays +
            (l.foldl (tallyStepA hs) t).weekendDays +
            (l.foldl (tallyStepA hs) t).holidayDays ∧
        (l.foldl (tallyStepA hs) t).totalDays = t.totalDays + l.length) ∧
      ((l.foldl (tallyStepB hs) t).totalDays =
          (l.foldl (tallyStepB hs) t).businessDays +
            (l.foldl (tallyStepB hs) t).weekendDays +
            (l.foldl (tallyStepB hs) t).holidayDays ∧
        (l.foldl (tallyStepB hs) t).totalDays = t.totalDays + l.length) := by
  induction l with
  | nil => intro t ht; simp [ht]
  | cons d l ih =>
    intro t ht
    have hp := tallyStep_preserves hs d t ht
    have hA := (ih (tallyStepA hs t d) hp.1).1
    have hB := (ih (tallyStepB hs t d) hp.2).2
    refine ⟨⟨hA.1, ?_⟩, hB.1, ?_⟩
    · simp only [List.foldl_cons, List.length_cons]
      rw [hA.2, tallyStepA_total]
      omega
    · simp only [List.foldl_cons, List.length_cons]
      rw [hB.2, tallyStepB_total]
      omega

/-- Soundness of the forward walk: from a loop state satisfying the loop
invariant, a successful walk returns the first day after the start whose
business-day count since the start reaches n, together with the number of
calendar days moved. -/
theorem addBizLoop_sound (hs : List Nat) (n s : Nat) :
    ∀ fuel current added moved r m,
      s ≤ current →
      moved = current - s →
      added = (daysInRange (s + 1) current).countP (isBusinessDay hs) →
      (n ≤ added → added = n ∧ isBusinessDay hs current = true ∧ s < current) →
      addBizLoop hs n fuel current added moved = some (r, m) →
      s < r ∧ m = r - s ∧ isBusinessDay hs r = true ∧
        (daysInRange (s + 1) r).countP (isBusinessDay hs) = n := by
  intro fuel
  induction fuel with
  | zero =>
    intro current added moved r m hsc hmov hadd hstop hrun
    unfold addBizLoop at hrun
    by_cases hle : n ≤ added
    · simp [hle] at hrun
      obtain ⟨he1, he2, he3⟩ := hstop hle
      rw [← hrun.1, ← hrun.2]
      exact ⟨he3, hmov, he2, hadd ▸ he1⟩
    · simp [hle] at hrun
  | succ f ih =>
    intro current added moved r m hsc hmov hadd hstop hrun
    unfold addBizLoop at hrun
    by_cases hle : n ≤ added
    · simp [hle] at hrun
      obtain ⟨he1, he2, he3⟩ := hstop hle
      rw [← hrun.1, ← hrun.2]
      exact ⟨he3, hmov, he2, hadd ▸ he1⟩
    · simp [hle] at hrun
      refine ih (current + 1) _ (moved + 1) r m (by omega) (by omega) ?_ ?_ hrun
      · rw [daysInRange_concat (by omega), List.countP_append, ← hadd]
        simp only [List.countP_cons, List.countP_nil]
        by_cases hbiz : isBusinessDay hs (current + 1) = true <;> simp [hbiz]
      · intro hle2
        by_cases hbiz : isBusinessDay hs (current + 1) = true
        · simp [hbiz] at hle2 ⊢
          exact ⟨by omega, by omega⟩
        · simp [hbiz] at hle2 ⊢
          omega

/-- If the interval scanned by the remaining fuel already contains enough
business days, the forward walk completes. -/
theorem addBizLoop_isSome_of_count (hs : List Nat) (n : Nat) :
    ∀ fuel current added moved,
      n ≤ added + (daysInRange (current + 1) (current + fuel)).countP (isBusinessDay hs) →
      (addBizLoop hs n fuel current added moved).isSome = true := by
  intro fuel
  induction fuel with
  | zero =>
    intro current added moved hcount
    rw [daysInRange_eq_nil (by omega)] at hcount
    simp at hcount
    unfold addBizLoop
    simp [hcount]
  | succ f ih =>
    intro current added moved hcount
    unfold addBizLoop
    by_cases hle : n ≤ added
    · simp [hle]
    · simp [hle]
      apply ih
      rw [daysInRange_cons (by omega), List.countP_cons] at hcount
      have : current + 1 + f = current + (f + 1) := by omega
      rw [this]
      by_cases hbiz : isBusinessDay hs (current + 1) = true <;>
        simp [hbiz] at hcount ⊢ <;> omega

/-- Every window of seven consecutive days contains a non-weekend day. -/
theorem exists_weekday_in_window (a : Nat) :
    ∃ d, a < d ∧ d ≤ a + 7 ∧ isWeekend d = false := by
  refine ⟨a + (7 - a % 7), by omega, by omega, ?_⟩
  have h : (a + (7 - a % 7) + 4) % 7 = 4 := by omega
  simp [isWeekend, getDay, h]

/-- Beyond the largest holiday, every block of 7k consecutive days contains
at least k business days. -/
theorem count_biz_blocks (hs : List Nat) :
    ∀ k a, (∀ d ∈ hs, d ≤ a) →
      k ≤ (daysInRange (a + 1) (a + 7 * k)).countP (isBusinessDay hs) := by
  intro k
  induction k with
  | zero => intro a _; omega
  | succ k ih =>
    intro a ha
    have hsplit : daysInRange (a + 1) (a + 7 * (k + 1)) =
        daysInRange (a + 1) (a + 7) ++ daysInRange (a + 8) (a + 7 * (k + 1)) := by
      have := daysInRange_split (a := a + 1) (b := a + 7) (c := a + 7 * (k + 1))
        (by omega) (by omega)
      simpa using this
    rw [hsplit, List.countP_append]
    obtain ⟨d, hd1, hd2, hdw⟩ := exists_weekday_in_window a
    have hdmem : d ∈ daysInRange (a + 1) (a + 7) := mem_daysInRange.mpr ⟨by omega, hd2⟩
    have hdbiz : isBusinessDay hs d = true := by
      have hdnot : d ∉ hs := fun hmem => absurd (ha d hmem) (by omega)
      simp [isBusinessDay, hdw, hdnot]
    have h1 : 1 ≤ (daysInRange (a + 1) (a + 7)).countP (isBusinessDay hs) :=
      List.countP_pos_iff.mpr ⟨d, hdmem, hdbiz⟩
    have h2 : k ≤ (daysInRange (a + 8) (a + 7 * (k + 1))).countP (isBusinessDay hs) := by
      have := ih (a + 7) (fun d hd => by have := ha d hd; omega)
      have harith : a + 7 + 7 * k = a + 7 * (k + 1) := by omega
      rw [← harith]
      simpa using this
    omega

/-- An upper bound for a list of day numbers together with a lower bound b:
foldr max b dominates b and every member. -/
theorem foldr_max_spec (l : List Nat) (b : Nat) :
    b ≤ l.foldr max b ∧ ∀ d ∈ l, d ≤ l.foldr max b := by
  induction l with
  | nil => simp
  | cons x l ih =>
    refine ⟨by simpa using Or.inr ih.1, ?_⟩
    intro d hd
    rcases List.mem_cons.mp hd with h | h
    · simp [h, le_max_iff]
    · have := ih.2 d h
      simp [le_max_iff]
      omega

/-- If the fuel-sized interval just below the start already contains enough
business days, the backward walk completes. -/
theorem subBizLoop_isSome_of_count (hs : List Nat) (n : Nat) :
    ∀ fuel b added,
      n ≤ added + (List.range' b fuel).countP (isBusinessDay hs) →
      (subBizLoop hs n fuel (b + fuel) added).isSome = true := by
  intro fuel
  induction fuel with
  | zero =>
    intro b added h
    simp at h
    unfold subBizLoop
    simp [h]
  | succ f ih =>
    intro b added h
    unfold subBizLoop
    by_cases hle : n ≤ added
    · simp [hle]
    · simp only [hle, if_false]
      have hc : b + (f + 1) - 1 = b + f := by omega
      rw [hc]
      apply ih
      rw [List.range'_concat] at h
      simp only [List.countP_append, List.countP_cons, List.countP_nil, one_mul] at h
      by_cases hbiz : isBusinessDay hs (b + f) = true <;> simp [hbiz] at h ⊢ <;> omega

/-- Soundness of the backward walk: starting at any point of the interval
with the invariant, a successful backward walk can only stop at the unique
business day d from which exactly n business days lie in [d, r). -/
theorem subBizLoop_sound (hs : List Nat) (n d r : Nat)
    (hd : isBusinessDay hs d = true)
    (hcount : (List.range' d (r - d)).countP (isBusinessDay hs) = n) :
    ∀ fuel current added b,
      d ≤ current → current ≤ r →
      added = (List.range' current (r - current)).countP (isBusinessDay hs) →
      subBizLoop hs n fuel current added = some b → b = d := by
  have hstop : ∀ current added, d ≤ current → current ≤ r →
      added = (List.range' current (r - current)).countP (isBusinessDay hs) →
      n ≤ added → current = d := by
    intro current added hdc hcr hadd hle
    by_contra hne
    have hdc2 : d + 1 ≤ current := by omega
    have hsplit : (List.range' d (r - d)).countP (isBusinessDay hs) =
        (List.range' d (current - d)).countP (isBusinessDay hs) +
          (List.range' current (r - current)).countP (isBusinessDay hs) := by
      have harr : List.range' d (current - d) ++ List.range' (d + 1 * (current - d)) (r - current)
          = List.range' d ((r - current) + (current - d)) := List.range'_append d _ _ 1
      have h1 : d + 1 * (current - d) = current := by omega
      have h2 : (r - current) + (current - d) = r - d := by omega
      rw [h1, h2] at harr
      rw [← harr, List.countP_append]
    have hmem : d ∈ List.range' d (current - d) := by
      rw [List.mem_range'_1]
      omega
    have hpos : 0 < (List.range' d (current - d)).countP (isBusinessDay hs) :=
      List.countP_pos_iff.mpr ⟨d, hmem, hd⟩
    omega
  intro fuel
  induction fuel with
  | zero =>
    intro current added b hdc hcr hadd hrun
    unfold subBizLoop at hrun
    by_cases hle : n ≤ added
    · simp [hle] at hrun
      rw [← hrun]
      exact hstop current added hdc hcr hadd hle
    · simp [hle] at hrun
  | succ f ih =>
    intro current added b hdc hcr hadd hrun
    unfold subBizLoop at hrun
    by_cases hle : n ≤ added
    · simp [hle] at hrun
      rw [← hrun]
      exact hstop current added hdc hcr hadd hle
    · simp only [hle, if_false] at hrun
      have hne : current ≠ d := by
        intro heq
        rw [heq] at hadd
        omega
      refine ih (current - 1) _ b (by omega) (by omega) ?_ hrun
      have harith : r - (current - 1) = (r - current) + 1 := by omega
      rw [harith, List.range'_succ]
      have harith2 : current - 1 + 1 = current := by omega
      rw [List.countP_cons, harith2]
      by_cases hbiz : isBusinessDay hs (current - 1) = true <;> simp [hbiz, hadd]

/-- Patching a failing year of the provider to return an empty list does
not change the try/catch accumulation. -/
theorem collectB_foldl_patch (fetch : Nat → Except Unit (List Nat)) (y : Nat)
    (hy : fetch y = .error ()) :
    ∀ (l : List Nat) (acc : List Nat),
      l.foldl (fun acc z => match fetch z with
        | .ok hs => acc ++ hs
        | .error _ => acc) acc
      = l.foldl (fun acc z => match (if z = y then Except.ok [] else fetch z) with
        | .ok hs => acc ++ hs
        | .error _ => acc) acc := by
  intro l
  induction l with
  | nil => intro acc; rfl
  | cons z l ih =>
    intro acc
    simp only [List.foldl_cons]
    by_cases hz : z = y
    · subst hz
      rw [hy]
      simpa using ih acc
    · simp only [hz, if_false]
      cases fetch z <;> exact ih _

/-- collectB is blind to a failing year being replaced by an empty list. -/
theorem collectB_patch (fetch : Nat → Except Unit (List Nat)) (y y0 y1 : Nat)
    (hy : fetch y = .error ()) :
    collectB fetch y0 y1 =
      collectB (fun z => if z = y then .ok [] else fetch z) y0 y1 :=
  collectB_foldl_patch fetch y hy _ []

/-- With per-country duplicate-free lists, the multiplicity of a date in
the flattened list equals the number of countries listing it. -/
theorem count_flatten_eq_countP (d : Nat) :
    ∀ (lists : List (List Nat)), (∀ l ∈ lists, l.Nodup) →
      lists.flatten.count d = lists.countP (fun l => l.contains d) := by
  intro lists
  induction lists with
  | nil => intro _; rfl
  | cons l ls ih =>
    intro h
    have hl : l.Nodup := h l (List.mem_cons_self l ls)
    have hls := ih (fun x hx => h x (List.mem_cons_of_mem l hx))
    simp only [List.flatten_cons, List.count_append, List.countP_cons]
    rw [hls]
    by_cases hm : d ∈ l
    · rw [List.count_eq_one_of_mem hl hm]
      simp [hm]
      omega
    · rw [List.count_eq_zero_of_not_mem hm]
      simp [hm]

end Lemmas

/-- C1: for every date range with start <= end and every holiday set, the
business-day tally of the business-days operation (in both application
variants) satisfies totalDays = businessDays + weekendDays + holidayDays,
and totalDays equals the inclusive calendar-day count between startDate
and endDate. -/
theorem claim1_tally_invariant (hs : List Nat) (s e : Nat) (h : s ≤ e) :
    ((tallyA hs s e).totalDays =
        (tallyA hs s e).businessDays + (tallyA hs s e).weekendDays +
          (tallyA hs s e).holidayDays ∧
      (tallyA hs s e).totalDays = e - s + 1) ∧
    ((tallyB hs s e).totalDays =
        (tallyB hs s e).businessDays + (tallyB hs s e).weekendDays +
          (tallyB hs s e).holidayDays ∧
      (tallyB hs s e).totalDays = e - s + 1) := by
  have hinv := tally_foldl_inv hs (daysInRange s e) ⟨0, 0, 0, 0⟩ (by simp)
  have hlen := length_daysInRange s e
  obtain ⟨⟨hA1, hA2⟩, hB1, hB2⟩ := hinv
  unfold tallyA tallyB
  refine ⟨⟨hA1, ?_⟩, hB1, ?_⟩
  · rw [hA2, hlen]; simp; omega
  · rw [hB2, hlen]; simp; omega

/-- Witness for C1 at the spec's concrete scenario: the week 2024-01-01 to
2024-01-07 with New Year's Day as holiday. -/
theorem claim1_tally_invariant_witness :
    (19723 : Nat) ≤ 19729 ∧
    (((tallyA [19723] 19723 19729).totalDays =
        (tallyA [19723] 19723 19729).businessDays +
          (tallyA [19723] 19723 19729).weekendDays +
          (tallyA [19723] 19723 19729).holidayDays ∧
      (tallyA [19723] 19723 19729).totalDays = 19729 - 19723 + 1) ∧
    ((tallyB [19723] 19723 19729).totalDays =
        (tallyB [19723] 19723 19729).businessDays +
          (tallyB [19723] 19723 19729).weekendDays +
          (tallyB [19723] 19723 19729).holidayDays ∧
      (tallyB [19723] 19723 19729).totalDays = 19729 - 19723 + 1)) :=
  ⟨by decide, claim1_tally_invariant [19723] 19723 19729 (by decide)⟩

/-- C3: a date that is both a weekend day and a holiday contributes, in one
loop step of either variant, only to totalDays and weekendDays - never to
holidayDays and never to businessDays. -/
theorem claim3_weekend_precedence (hs : List Nat) (d : Nat) (t : Tally)
    (hw : isWeekend d = true) (_hmem : hs.contains d = true) :
    tallyStepA hs t d =
      ⟨t.totalDays + 1, t.businessDays, t.weekendDays + 1, t.holidayDays⟩ ∧
    tallyStepB hs t d =
      ⟨t.totalDays + 1, t.businessDays, t.weekendDays + 1, t.holidayDays⟩ := by
  constructor <;> simp [tallyStepA, tallyStepB, hw]

/-- Witness for C3: Saturday 2024-01-06 marked as a holiday. -/
theorem claim3_weekend_precedence_witness :
    isWeekend 19728 = true ∧ ([19728] : List Nat).contains 19728 = true ∧
    (tallyStepA [19728] ⟨0, 0, 0, 0⟩ 19728 = ⟨1, 0, 1, 0⟩ ∧
      tallyStepB [19728] ⟨0, 0, 0, 0⟩ 19728 = ⟨1, 0, 1, 0⟩) :=
  ⟨by decide, by decide,
    claim3_weekend_precedence [19728] 19728 ⟨0, 0, 0, 0⟩ (by decide) (by decide)⟩

/-- C9: a range whose end precedes its start is treated as empty by the
business-days loop of both application variants: the tally is all zeros. -/
theorem claim9_empty_range (hs : List Nat) (s e : Nat) (h : e < s) :
    tallyA hs s e = ⟨0, 0, 0, 0⟩ ∧ tallyB hs s e = ⟨0, 0, 0, 0⟩ := by
  unfold tallyA tallyB
  rw [daysInRange_eq_nil h]
  simp

/-- Witness for C9: the inverted one-day range 2024-01-02 .. 2024-01-01. -/
theorem claim9_empty_range_witness :
    (19723 : Nat) < 19724 ∧
    (tallyA [19723] 19724 19723 = ⟨0, 0, 0, 0⟩ ∧
      tallyB [19723] 19724 19723 = ⟨0, 0, 0, 0⟩) :=
  ⟨by decide, claim9_empty_range [19723] 19724 19723 (by decide)⟩

/-- C7: the ISO week number of 2021-01-01 is 53: the Thursday shift lands
on 2020-12-31, so the date belongs to the last ISO week of 2020. -/
theorem claim7_isoWeek : getISOWeek (daysFromCivil 2021 1 1) = 53 := by decide

/-- C2 counterexample: the business-days handler of src/unnamed/part_000
(one of the two multi-year aggregation operations the claim covers) has no
try/catch around its per-year fetch, so a provider error for 2024 inside a
2024-2025 range makes the whole operation fail instead of contributing an
empty year. -/
theorem claim2_counterexample :
    businessDaysHandlerA (fun y => if y = 2024 then .error () else .ok [])
      (daysFromCivil 2024 6 1) (daysFromCivil 2025 6 1) = .error () := by
  rfl

/-- C2 amended: the src/src/index.ts business-days tally and the
add-business-days forward walk do swallow a per-year provider failure -
their result is unchanged when the failing year is replaced by a provider
returning an empty list; the src/unnamed/part_000 business-days tally
instead propagates the error (see the counterexample). -/
theorem claim2_per_year_failure (fetch : Nat → Except Unit (List Nat))
    (y s e n fuel : Nat) (hy : fetch y = .error ()) :
    businessDaysHandlerB fetch s e =
      businessDaysHandlerB (fun z => if z = y then .ok [] else fetch z) s e ∧
    addBusinessDaysHandler fetch s n fuel =
      addBusinessDaysHandler (fun z => if z = y then .ok [] else fetch z) s n fuel := by
  unfold businessDaysHandlerB addBusinessDaysHandler
  rw [collectB_patch fetch y (yearOf s) (yearOf e) hy,
    collectB_patch fetch y (yearOf s) (yearOf s + 2) hy]
  exact ⟨rfl, rfl⟩

/-- Witness for C2 amended: usFetch fails for 2026, patched to empty. -/
theorem claim2_per_year_failure_witness :
    usFetch 2026 = .error () ∧
    (businessDaysHandlerB usFetch 20083 20090 =
      businessDaysHandlerB (fun z => if z = 2026 then .ok [] else usFetch z) 20083 20090 ∧
    addBusinessDaysHandler usFetch 20083 1 10 =
      addBusinessDaysHandler (fun z => if z = 2026 then .ok [] else usFetch z) 20083 1 10) :=
  ⟨rfl, claim2_per_year_failure usFetch 2026 20083 20090 1 10 rfl⟩

/-- C4: a successful add-business-days walk starts the day after the start
date (the start date is never counted), counts exactly n business days -
days neither weekend nor in the holiday set collected for the start year
and the following two years - up to and including the returned date, which
is itself a business day, and reports the calendar days traversed as the
distance from the start date. -/
theorem claim4_addBusinessDays (fetch : Nat → Except Unit (List Nat))
    (s n fuel r m : Nat) (hn : 1 ≤ n)
    (h : addBusinessDaysHandler fetch s n fuel = some (r, m)) :
    s < r ∧ m = r - s ∧
    isBusinessDay (collectB fetch (yearOf s) (yearOf s + 2)) r = true ∧
    (daysInRange (s + 1) r).countP
      (isBusinessDay (collectB fetch (yearOf s) (yearOf s + 2))) = n := by
  unfold addBusinessDaysHandler at h
  refine addBizLoop_sound _ n s fuel s 0 0 r m (le_refl s) (by omega) ?_ ?_ h
  · rw [daysInRange_eq_nil (by omega)]
    rfl
  · intro hle
    exact absurd hle (by omega)

/-- Witness for C4: one business day added to Monday 2024-01-01 with an
empty holiday provider reaches Tuesday 2024-01-02 in one calendar day. -/
theorem claim4_addBusinessDays_witness :
    (1 : Nat) ≤ 1 ∧
    addBusinessDaysHandler (fun _ => .ok []) 19723 1 10 = some (19724, 1) ∧
    (19723 < 19724 ∧ (1 : Nat) = 19724 - 19723 ∧
      isBusinessDay (collectB (fun _ => .ok []) (yearOf 19723) (yearOf 19723 + 2))
        19724 = true ∧
      (daysInRange (19723 + 1) 19724).countP
        (isBusinessDay (collectB (fun _ => .ok []) (yearOf 19723) (yearOf 19723 + 2)))
        = 1) :=
  ⟨by decide, rfl,
    claim4_addBusinessDays (fun _ => .ok []) 19723 1 10 19724 1 (by decide) rfl⟩

/-- C10: the forward walk terminates for every finite holiday set: some
fuel (number of while-loop iterations) suffices, because beyond the largest
holiday every 7-day window contains a non-weekend, non-holiday day. -/
theorem claim10_termination (hs : List Nat) (s n : Nat) (hn : 1 ≤ n) :
    ∃ fuel, (addBizLoop hs n fuel s 0 0).isSome = true := by
  obtain ⟨hb, hmem⟩ := foldr_max_spec hs s
  refine ⟨(hs.foldr max s - s) + 7 * n, ?_⟩
  apply addBizLoop_isSome_of_count
  have hse : s + ((hs.foldr max s - s) + 7 * n) = hs.foldr max s + 7 * n := by omega
  rw [hse]
  have hsplit : daysInRange (s + 1) (hs.foldr max s + 7 * n) =
      daysInRange (s + 1) (hs.foldr max s) ++
        daysInRange (hs.foldr max s + 1) (hs.foldr max s + 7 * n) :=
    daysInRange_split (by omega) (by omega)
  rw [hsplit, List.countP_append]
  have := count_biz_blocks hs n (hs.foldr max s) hmem
  omega

/-- Witness for C10: the walk from Monday 2024-01-01 with no holidays. -/
theorem claim10_termination_witness :
    (1 : Nat) ≤ 1 ∧ ∃ fuel, (addBizLoop [] 1 fuel 19723 0 0).isSome = true :=
  ⟨by decide, claim10_termination [] 19723 1 (by decide)⟩

/-- C8 counterexample: starting from Saturday 2024-01-06 (day 19728) with
no holidays, adding one business day reaches Monday 2024-01-08 (19730),
but walking one business day backward from there lands on Friday
2024-01-05 (19727), not on the Saturday start date: the claimed round trip
fails for a non-business start date. -/
theorem claim8_counterexample :
    addBusinessDaysHandler (fun _ => .ok []) 19728 1 10 = some (19730, 2) ∧
    subBizLoop (collectB (fun _ => .ok []) (yearOf 19728) (yearOf 19728 + 2))
      1 10 19730 0 = some 19727 ∧
    (19727 : Nat) ≠ 19728 :=
  ⟨rfl, rfl, by decide⟩

/-- C8 amended: when the start date is itself a business day, the date
returned by add-business-days has the round-trip property: walking
backward n business days (skipping weekends and holidays) from it returns
to the start date. -/
theorem claim8_roundtrip (fetch : Nat → Except Unit (List Nat))
    (d n fuel r m : Nat) (hn : 1 ≤ n)
    (hd : isBusinessDay (collectB fetch (yearOf d) (yearOf d + 2)) d = true)
    (h : addBusinessDaysHandler fetch d n fuel = some (r, m)) :
    ∃ fuel2, subBizLoop (collectB fetch (yearOf d) (yearOf d + 2)) n fuel2 r 0
      = some d := by
  set hs := collectB fetch (yearOf d) (yearOf d + 2) with hhs
  unfold addBusinessDaysHandler at h
  rw [← hhs] at h
  obtain ⟨hdr, hm, hbr, hcount⟩ :=
    addBizLoop_sound hs n d fuel d 0 0 r m (le_refl d) (by omega)
      (by rw [daysInRange_eq_nil (by omega)]; rfl)
      (fun hle => absurd hle (by omega)) h
  have hc2 : (List.range' d (r - d)).countP (isBusinessDay hs) = n := by
    have e1 : daysInRange (d + 1) r = daysInRange (d + 1) (r - 1) ++ [r] := by
      have hcc := daysInRange_concat (a := d + 1) (b := r - 1) (by omega)
      have harith : r - 1 + 1 = r := by omega
      rw [harith] at hcc
      exact hcc
    have e2 : List.range' d (r - d) = daysInRange d (r - 1) := by
      unfold daysInRange
      have harith : r - 1 + 1 - d = r - d := by omega
      rw [harith]
    have e3 : daysInRange d (r - 1) = d :: daysInRange (d + 1) (r - 1) :=
      daysInRange_cons (by omega)
    rw [e1, List.countP_append, List.countP_cons, List.countP_nil] at hcount
    rw [e2, e3, List.countP_cons]
    simp only [hd, hbr, if_true] at hcount ⊢
    omega
  refine ⟨r - d, ?_⟩
  have hsome := subBizLoop_isSome_of_count hs n (r - d) d 0 (by rw [hc2]; omega)
  have harith : d + (r - d) = r := by omega
  rw [harith] at hsome
  obtain ⟨b, hb⟩ := Option.isSome_iff_exists.mp hsome
  have hbd := subBizLoop_sound hs n d r hd hc2 (r - d) r 0 b (by omega)
    (le_refl r) (by rw [Nat.sub_self]; rfl) hb
  rw [hbd] at hb
  exact hb

/-- Witness for C8 amended: one business day forward from Monday
2024-01-01 reaches Tuesday 2024-01-02, and the backward walk returns. -/
theorem claim8_roundtrip_witness :
    (1 : Nat) ≤ 1 ∧
    isBusinessDay (collectB (fun _ => .ok []) (yearOf 19723) (yearOf 19723 + 2))
      19723 = true ∧
    addBusinessDaysHandler (fun _ => .ok []) 19723 1 10 = some (19724, 1) ∧
    ∃ fuel2, subBizLoop (collectB (fun _ => .ok []) (yearOf 19723) (yearOf 19723 + 2))
      1 fuel2 19724 0 = some 19723 :=
  ⟨by decide, rfl, rfl,
    claim8_roundtrip (fun _ => .ok []) 19723 1 10 19724 1 (by decide) rfl rfl⟩

/-- C5: when the provider yields lists L1 and L2 for fromDate's year and
the following year, next-holiday either reports no upcoming holiday - and
then every fetched holiday is on or before fromDate - or returns the
earliest fetched holiday strictly after fromDate, with daysUntil equal to
the calendar-day difference (counting the holiday date itself, as the
source's ceil of an exact millisecond difference computes). -/
theorem claim5_nextHoliday (fetch : Nat → Except Unit (List Nat)) (f : Nat)
    (L1 L2 : List Nat) (h1 : fetch (yearOf f) = .ok L1)
    (h2 : fetch (yearOf f + 1) = .ok L2) :
    (nextHolidayHandler fetch f = .ok none ∧ ∀ x ∈ L1 ++ L2, x ≤ f) ∨
    (∃ d, nextHolidayHandler fetch f = .ok (some (d, d - f)) ∧
      d ∈ L1 ++ L2 ∧ f < d ∧ ∀ x ∈ L1 ++ L2, f < x → d ≤ x) := by
  have hred : nextHolidayHandler fetch f =
      match (List.insertionSort (· ≤ ·)
          ((L1 ++ L2).filter (fun d => decide (f < d)))).head? with
        | none => Except.ok none
        | some d => Except.ok (some (d, d - f)) := by
    unfold nextHolidayHandler
    rw [h1, h2]
    rfl
  set sorted := List.insertionSort (· ≤ ·)
    ((L1 ++ L2).filter (fun d => decide (f < d))) with hsorted
  have hperm : sorted.Perm ((L1 ++ L2).filter (fun d => decide (f < d))) :=
    List.perm_insertionSort _ _
  cases hh : sorted.head? with
  | none =>
    left
    constructor
    · rw [hred, hh]
    · rw [List.head?_eq_none_iff] at hh
      rw [hh] at hperm
      have hnil := hperm.symm.eq_nil
      rw [List.filter_eq_nil_iff] at hnil
      intro x hx
      have := hnil x hx
      simpa using this
  | some d =>
    right
    refine ⟨d, by rw [hred, hh], ?_, ?_, ?_⟩
    · have hmem : d ∈ sorted := List.mem_of_mem_head? hh
      have := hperm.mem_iff.mp hmem
      exact (List.mem_filter.mp this).1
    · have hmem : d ∈ sorted := List.mem_of_mem_head? hh
      have := (List.mem_filter.mp (hperm.mem_iff.mp hmem)).2
      simpa using this
    · intro x hx hfx
      obtain ⟨tail, htail⟩ := List.head?_eq_some_iff.mp hh
      have hxs : x ∈ sorted := by
        apply hperm.mem_iff.mpr
        rw [List.mem_filter]
        exact ⟨hx, by simpa using hfx⟩
      have hsort : List.Sorted (· ≤ ·) sorted :=
        List.sorted_insertionSort _ _
      rw [htail] at hxs hsort
      rcases List.mem_cons.mp hxs with hxd | hxt
      · omega
      · exact List.rel_of_sorted_cons hsort x hxt

/-- Witness for C5 at the spec's concrete scenario: nextHoliday for the US
from 2024-12-26 (day 20083) returns 2025-01-01 (day 20089) with daysUntil
6. -/
theorem claim5_nextHoliday_witness :
    nextHolidayHandler usFetch 20083 = .ok (some (20089, 6)) ∧
    ((nextHolidayHandler usFetch 20083 = .ok none ∧
        ∀ x ∈ us2024 ++ us2025, x ≤ 20083) ∨
      (∃ d, nextHolidayHandler usFetch 20083 = .ok (some (d, d - 20083)) ∧
        d ∈ us2024 ++ us2025 ∧ 20083 < d ∧
        ∀ x ∈ us2024 ++ us2025, 20083 < x → d ≤ x)) :=
  ⟨rfl, claim5_nextHoliday usFetch 20083 us2024 us2025 rfl rfl⟩

/-- C6 counterexample: with two countries where only the first lists date 5
- twice - the handler reports 5 as shared although it occurs in a single
country's list: the occurrence count is taken over the concatenation, not
over countries. -/
theorem claim6_counterexample :
    sharedHolidayDates [[5, 5], []] = [5] ∧
    sharedBySpec [[5, 5], []] 5 = false := by
  constructor
  · rfl
  · rfl

/-- C6 amended: provided each country's fetched holiday list is free of
duplicate dates, the shared-holiday-dates list is sorted ascending and
contains exactly the dates present in more than one input country's list.
-/
theorem claim6_shared_dates (lists : List (List Nat))
    (hnd : ∀ l ∈ lists, l.Nodup) :
    List.Sorted (· ≤ ·) (sharedHolidayDates lists) ∧
    ∀ d, d ∈ sharedHolidayDates lists ↔ sharedBySpec lists d = true := by
  constructor
  · exact List.sorted_insertionSort _ _
  · intro d
    unfold sharedHolidayDates sharedBySpec
    simp only []
    have hperm := List.perm_insertionSort (· ≤ ·)
      (lists.flatten.dedup.filter (fun x => decide (1 < lists.flatten.count x)))
    rw [hperm.mem_iff, List.mem_filter]
    constructor
    · intro ⟨hdd, hcnt⟩
      rw [count_flatten_eq_countP d lists hnd] at hcnt
      simpa using hcnt
    · intro hspec
      have hcnt : 1 < lists.flatten.count d := by
        rw [count_flatten_eq_countP d lists hnd]
        simpa using hspec
      refine ⟨List.mem_dedup.mpr ?_, by simpa using hcnt⟩
      exact List.count_pos_iff.mp (by omega)

/-- Witness for C6 amended: US and GB style lists sharing New Year 2025. -/
theorem claim6_shared_dates_witness :
    (∀ l ∈ [[20089], [20089, 19723]], List.Nodup l) ∧
    (List.Sorted (· ≤ ·) (sharedHolidayDates [[20089], [20089, 19723]]) ∧
      ∀ d, d ∈ sharedHolidayDates [[20089], [20089, 19723]] ↔
        sharedBySpec [[20089], [20089, 19723]] d = true) :=
  ⟨by decide, claim6_shared_dates [[20089], [20089, 19723]] (by decide)⟩

end CalendarIntel
